import Mathlib

/-!
Verification of the asar-merging core (`src/dist/cjs/asar-utils.js`).

The module reconciles two architecture-specific asar archives into one
universal archive.  We give a shallow embedding: the external asar / fs /
minimatch / lipo capabilities are an oracle record `AsarEnv`, and the body
of `mergeASARs` is translated statement by statement into pure Lean
functions over that oracle.  Filesystem effects of the second phase
(temporary workspace, extraction, copying, lipo invocations, packing,
cleanup) are recorded as an explicit event trace so that temporal claims
(what happens before what, what is attempted on which exit path) are
statable.
-/

set_option autoImplicit false

/-- Result of `asar.statFile`: whether the stat object carries a `files`
field (the directory marker used by `isDirectory`, line 49-51), and the
value of its optional `unpacked` field (`none` when the field is absent). -/
structure Stat where
  hasFiles : Bool
  unpacked : Option Bool
deriving DecidableEq

/-- The external capabilities consumed by `asar-utils.js`: the asar archive
library (`listPackage`, `statFile`, `extractFile`), the `minimatch` glob
matcher called with `matchBase: true`, the external `lipo -create` process
(given the source-side bytes and destination-side bytes, returns the merged
bytes or a nonzero-exit failure message), and `fs.remove` (per-directory
success or failure).  File contents are byte lists. -/
structure AsarEnv where
  listPackage : String → List String
  statFile : String → String → Stat
  extractFile : String → String → List Nat
  minimatch : String → String → Bool
  lipoCreate : List Nat → List Nat → Except String (List Nat)
  remove : String → Except String Unit

/-- `toRelativePath` (line 46-48): strip a single leading slash
(`file.replace(/^\x2f/, '')`). -/
def toRelativePath (f : String) : String :=
  match f.data with
  | '/' :: rest => String.mk rest
  | _ => f

/-- The relative path list of an archive: `asar.listPackage(p).map(toRelativePath)`
(lines 60-61).  The JS code wraps this in a `Set`; we keep the list and use
list membership for the set semantics. -/
def relFiles (env : AsarEnv) (p : String) : List String :=
  (env.listPackage p).map toRelativePath

/-- The recognized Mach-O magic numbers (lines 19-26). -/
def MACHO_MAGIC : List Nat := [0xfeedface, 0xcefaedfe, 0xfeedfacf, 0xcffaedfe]

/-- `Buffer.readUInt32LE(0)`: the little-endian 32-bit value of the first
four bytes, or `none` (Node throws `ERR_OUT_OF_RANGE`) when the buffer has
fewer than four bytes. -/
def readUInt32LE : List Nat → Option Nat
  | b0 :: b1 :: b2 :: b3 :: _ => some (b0 + b1 * 256 + b2 * 65536 + b3 * 16777216)
  | _ => none

/-- Whether the leading four bytes exist and form a recognized Mach-O magic
number: the condition under which line 112's check passes. -/
def machoOk (bs : List Nat) : Bool :=
  match readUInt32LE bs with
  | some m => decide (m ∈ MACHO_MAGIC)
  | none => false

/-- The failure modes of `mergeASARs`: the unmatched-unique-file throw
(lines 52-57), the non-Mach-O throw (line 113), the out-of-range throw
hidden inside `readUInt32LE` (line 112), a nonzero exit of the external
lipo process (line 143), and an fs failure during cleanup (line 153). -/
inductive MergeError where
  | unmatchedUniqueFile (archive file : String) (allowList : Option String)
  | nonMacho (file : String)
  | rangeError (file : String)
  | binaryMergeFailure (file msg : String)
  | ioError (msg : String)
deriving DecidableEq

/-- The allow-list test of `checkSingleArch` (line 53): `false` when the
allow list is absent or `minimatch` rejects the file. -/
def gateOk (env : AsarEnv) (allow : Option String) (f : String) : Bool :=
  match allow with
  | none => false
  | some pat => env.minimatch f pat

/-- `checkSingleArch` (lines 52-57): throws unless the allow list is present
and matches. -/
def checkSingleArch (env : AsarEnv) (archive f : String) (allow : Option String) :
    Except MergeError Unit :=
  if gateOk env allow f then .ok () else .error (.unmatchedUniqueFile archive f allow)

/-- The first uniqueness loop (lines 83-87): every x64 file missing from the
arm64 archive must pass `checkSingleArch`. -/
def checkUniqueLoop (env : AsarEnv) (archive : String) (other : List String)
    (allow : Option String) : List String → Except MergeError Unit
  | [] => .ok ()
  | f :: rest =>
    if f ∈ other then checkUniqueLoop env archive other allow rest
    else
      match checkSingleArch env archive f allow with
      | .error e => .error e
      | .ok _ => checkUniqueLoop env archive other allow rest

/-- The second uniqueness loop (lines 88-94): every arm64 file missing from
the x64 archive must pass `checkSingleArch` and is collected into
`arm64Unique`. -/
def collectUniqueLoop (env : AsarEnv) (archive : String) (other : List String)
    (allow : Option String) : List String → Except MergeError (List String)
  | [] => .ok []
  | f :: rest =>
    if f ∈ other then collectUniqueLoop env archive other allow rest
    else
      match checkSingleArch env archive f allow with
      | .error e => .error e
      | .ok _ =>
        match collectUniqueLoop env archive other allow rest with
        | .error e => .error e
        | .ok l => .ok (f :: l)

/-- The body of the common-file loop for one file (lines 103-115): skip
directories (by the x64 stat), skip byte-identical content, throw a range
error when the x64 content has fewer than four bytes, throw the non-Mach-O
error when the leading value is not a recognized magic, otherwise report
the file as a binding to merge. -/
def checkCommonFile (env : AsarEnv) (x64P arm64P f : String) :
    Except MergeError (Option String) :=
  if (env.statFile x64P f).hasFiles then .ok none
  else
    let xc := env.extractFile x64P f
    let ac := env.extractFile arm64P f
    if xc = ac then .ok none
    else
      match readUInt32LE xc with
      | none => .error (.rangeError f)
      | some m => if m ∈ MACHO_MAGIC then .ok (some f) else .error (.nonMacho f)

/-- The common-file loop (lines 98-116): iterate the x64 files, skip those
not shared with the arm64 archive, and apply `checkCommonFile`, collecting
`commonBindings`. -/
def commonLoop (env : AsarEnv) (x64P arm64P : String) (other : List String) :
    List String → Except MergeError (List String)
  | [] => .ok []
  | f :: rest =>
    if f ∈ other then
      match checkCommonFile env x64P arm64P f with
      | .error e => .error e
      | .ok none => commonLoop env x64P arm64P other rest
      | .ok (some b) =>
        match commonLoop env x64P arm64P other rest with
        | .error e => .error e
        | .ok l => .ok (b :: l)
    else commonLoop env x64P arm64P other rest

/-- `buildUnpacked` (lines 65-77): the files of one archive whose stat has a
true `unpacked` field and no `files` field (directories are skipped). -/
def buildUnpacked (env : AsarEnv) (a : String) (fileList : List String) : List String :=
  fileList.filter (fun f =>
    decide ((env.statFile a f).unpacked = some true) && !(env.statFile a f).hasFiles)

/-- The data computed by the validation phase of `mergeASARs`
(lines 60-116), before any temporary directory exists. -/
structure Plan where
  arm64Unique : List String
  commonBindings : List String
  unpackedFiles : List String
deriving DecidableEq

/-- The validation phase of `mergeASARs` (lines 60-116), in source order:
list both archives, build the unpacked set, check x64-unique files, check
and collect arm64-unique files, then scan common files.  Any throw aborts
before a temporary directory is created. -/
def validate (env : AsarEnv) (x64P arm64P : String) (allow : Option String) :
    Except MergeError Plan :=
  let x64Files := relFiles env x64P
  let arm64Files := relFiles env arm64P
  let unpackedFiles := buildUnpacked env x64P x64Files ++ buildUnpacked env arm64P arm64Files
  match checkUniqueLoop env x64P arm64Files allow x64Files with
  | .error e => .error e
  | .ok _ =>
    match collectUniqueLoop env arm64P x64Files allow arm64Files with
    | .error e => .error e
    | .ok arm64Unique =>
      match commonLoop env x64P arm64P arm64Files x64Files with
      | .error e => .error e
      | .ok commonBindings => .ok ⟨arm64Unique, commonBindings, unpackedFiles⟩

/-- The observable filesystem / process effects of the second phase of
`mergeASARs`: temporary directory creation (line 120-121), full extraction
(124, 126), per-unique-entry directory creation or file copy (132, 137),
a lipo invocation (143), packing the output (147-149), and a removal
attempt (153).  Copy and mkdir events carry the x64Dir-relative path. -/
inductive Event where
  | mkdtemp (dir : String)
  | extractAll (archive dir : String)
  | mkdirp (file : String)
  | copyFile (file : String)
  | lipo (file : String)
  | createPackage (dir out : String) (unpackGlob : List String)
  | removeDir (dir : String)
deriving DecidableEq

/-- The extracted x64 working tree: the set of entry paths present and the
byte content at each path. -/
structure DirTree where
  paths : List String
  content : String → List Nat

/-- Point update of a content map. -/
def updateFn (g : String → List Nat) (k : String) (v : List Nat) : String → List Nat :=
  fun x => if x = k then v else g x

/-- The arm64-unique copy loop (lines 127-138): a unique directory is
created under the x64 tree, a unique file is copied from the arm64 tree
(its extracted bytes) into the x64 tree. -/
def copyLoop (env : AsarEnv) (arm64P : String) : DirTree → List String → DirTree × List Event
  | t, [] => (t, [])
  | t, f :: rest =>
    if (env.statFile arm64P f).hasFiles then
      let r := copyLoop env arm64P ⟨t.paths ++ [f], t.content⟩ rest
      (r.1, .mkdirp f :: r.2)
    else
      let r := copyLoop env arm64P
        ⟨t.paths ++ [f], updateFn t.content f (env.extractFile arm64P f)⟩ rest
      (r.1, .copyFile f :: r.2)

/-- The lipo loop (lines 139-144): for each common binding, the external
tool combines the arm64-side bytes (source) with the x64-side bytes
(destination), overwriting the destination in place; a nonzero exit aborts
the loop. -/
def lipoLoop (env : AsarEnv) (arm64P : String) :
    DirTree → List String → Except MergeError DirTree × List Event
  | t, [] => (.ok t, [])
  | t, b :: rest =>
    match env.lipoCreate (env.extractFile arm64P b) (t.content b) with
    | .error msg => (.error (.binaryMergeFailure b msg), [.lipo b])
    | .ok merged =>
      let r := lipoLoop env arm64P ⟨t.paths, updateFn t.content b merged⟩ rest
      (r.1, .lipo b :: r.2)

/-- The outcome of a successful merge: the entry paths of the output
archive, the byte content packed for each path, and the relative paths
passed to the repacker as the must-remain-unpacked set. -/
structure MergeResult where
  entries : List String
  content : String → List Nat
  unpackList : List String

/-- The temporary x64 extraction directory allocated by `fs.mkdtemp`. -/
def x64DirName : String := "/tmp/x64-j8f3ka"

/-- The temporary arm64 extraction directory allocated by `fs.mkdtemp`. -/
def arm64DirName : String := "/tmp/arm64-j8f3ka"

/-- The body of the try block (lines 120-150): create the two temporary
directories, extract both archives, copy the arm64-unique entries into the
x64 tree, lipo every common binding in place, then pack the x64 tree into
the output, passing the unpacked paths (joined under the x64 directory)
to the repacker. -/
def mergePhase2 (env : AsarEnv) (x64P arm64P outP : String) (plan : Plan) :
    Except MergeError MergeResult × List Event :=
  let pre := [Event.mkdtemp x64DirName, Event.mkdtemp arm64DirName,
    Event.extractAll x64P x64DirName, Event.extractAll arm64P arm64DirName]
  let t0 : DirTree := ⟨relFiles env x64P, env.extractFile x64P⟩
  let c := copyLoop env arm64P t0 plan.arm64Unique
  match lipoLoop env arm64P c.1 plan.commonBindings with
  | (.error e, levs) => (.error e, pre ++ c.2 ++ levs)
  | (.ok t2, levs) =>
    (.ok ⟨t2.paths, t2.content, plan.unpackedFiles⟩,
      pre ++ c.2 ++ levs ++
        [Event.createPackage x64DirName outP
          (plan.unpackedFiles.map (fun f => x64DirName ++ "/" ++ f))])

/-- `mergeASARs` (lines 58-155).  A validation throw propagates before any
temporary directory exists (empty trace).  Otherwise the try body runs and
the finally clause awaits `Promise.all([fs.remove(x64Dir), fs.remove(arm64Dir)])`:
both removals are started unconditionally, and per JavaScript semantics a
rejection of the finally clause replaces the try block's outcome, so a
failed removal masks the body's result. -/
def mergeASARs (env : AsarEnv) (x64P arm64P outP : String) (allow : Option String) :
    Except MergeError MergeResult × List Event :=
  match validate env x64P arm64P allow with
  | .error e => (.error e, [])
  | .ok plan =>
    let r := mergePhase2 env x64P arm64P outP plan
    let evs := r.2 ++ [Event.removeDir x64DirName, Event.removeDir arm64DirName]
    match env.remove x64DirName with
    | .error e => (.error (.ioError e), evs)
    | .ok _ =>
      match env.remove arm64DirName with
      | .error e => (.error (.ioError e), evs)
      | .ok _ => (r.1, evs)

/-- Paths unique to the A (x64) archive: the reconciliation set derived by
the loop at lines 83-87. -/
def uniqueToA (env : AsarEnv) (pA pB : String) : List String :=
  (relFiles env pA).filter (fun f => decide (f ∉ relFiles env pB))

/-- Paths unique to the B (arm64) archive (lines 88-94). -/
def uniqueToB (env : AsarEnv) (pA pB : String) : List String :=
  (relFiles env pB).filter (fun f => decide (f ∉ relFiles env pA))

/-- Paths common to both archives (line 99-102). -/
def commonPaths (env : AsarEnv) (pA pB : String) : List String :=
  (relFiles env pA).filter (fun f => decide (f ∈ relFiles env pB))

/-- Common paths that the merge skips as directories; the decision uses the
A-archive's stat only (line 104). -/
def commonDirs (env : AsarEnv) (pA pB : String) : List String :=
  (commonPaths env pA pB).filter (fun f => (env.statFile pA f).hasFiles)

/-- Common non-directory paths whose contents are byte-identical in both
archives (line 109). -/
def identicalCommon (env : AsarEnv) (pA pB : String) : List String :=
  (commonPaths env pA pB).filter (fun f =>
    !(env.statFile pA f).hasFiles && decide (env.extractFile pA f = env.extractFile pB f))

/-- Common non-directory paths whose contents differ between the archives
(the candidates for binary merging, lines 107-115). -/
def divergentCommon (env : AsarEnv) (pA pB : String) : List String :=
  (commonPaths env pA pB).filter (fun f =>
    !(env.statFile pA f).hasFiles && !decide (env.extractFile pA f = env.extractFile pB f))

theorem mem_uniqueToA {env : AsarEnv} {pA pB f : String} :
    f ∈ uniqueToA env pA pB ↔ f ∈ relFiles env pA ∧ f ∉ relFiles env pB := by
  simp [uniqueToA, List.mem_filter]

theorem mem_uniqueToB {env : AsarEnv} {pA pB f : String} :
    f ∈ uniqueToB env pA pB ↔ f ∈ relFiles env pB ∧ f ∉ relFiles env pA := by
  simp [uniqueToB, List.mem_filter]

theorem mem_commonPaths {env : AsarEnv} {pA pB f : String} :
    f ∈ commonPaths env pA pB ↔ f ∈ relFiles env pA ∧ f ∈ relFiles env pB := by
  simp [commonPaths, List.mem_filter]

theorem mem_commonDirs {env : AsarEnv} {pA pB f : String} :
    f ∈ commonDirs env pA pB ↔
      (f ∈ relFiles env pA ∧ f ∈ relFiles env pB) ∧ (env.statFile pA f).hasFiles = true := by
  simp [commonDirs, List.mem_filter, mem_commonPaths]

theorem mem_identicalCommon {env : AsarEnv} {pA pB f : String} :
    f ∈ identicalCommon env pA pB ↔
      (f ∈ relFiles env pA ∧ f ∈ relFiles env pB) ∧ (env.statFile pA f).hasFiles = false ∧
        env.extractFile pA f = env.extractFile pB f := by
  simp [identicalCommon, List.mem_filter, mem_commonPaths]

theorem mem_divergentCommon {env : AsarEnv} {pA pB f : String} :
    f ∈ divergentCommon env pA pB ↔
      (f ∈ relFiles env pA ∧ f ∈ relFiles env pB) ∧ (env.statFile pA f).hasFiles = false ∧
        env.extractFile pA f ≠ env.extractFile pB f := by
  simp [divergentCommon, List.mem_filter, mem_commonPaths]

/-- C2: the reconciliation sets `uniqueToA`, `uniqueToB`, `identicalCommon`,
`divergentCommon` derived from two manifests are pairwise disjoint, and
together with the common directory paths their union is the union of both
manifests' path sets; restricted to one side, `uniqueToA ∪ identicalCommon ∪
divergentCommon ∪ commonDirs` is exactly the A path set, and symmetrically
`uniqueToB ∪ identicalCommon ∪ divergentCommon ∪ commonDirs` is the B path
set. -/
theorem reconciliation_partition (env : AsarEnv) (pA pB : String) :
    ((uniqueToA env pA pB).toFinset ∩ (uniqueToB env pA pB).toFinset = ∅) ∧
    ((uniqueToA env pA pB).toFinset ∩ (identicalCommon env pA pB).toFinset = ∅) ∧
    ((uniqueToA env pA pB).toFinset ∩ (divergentCommon env pA pB).toFinset = ∅) ∧
    ((uniqueToB env pA pB).toFinset ∩ (identicalCommon env pA pB).toFinset = ∅) ∧
    ((uniqueToB env pA pB).toFinset ∩ (divergentCommon env pA pB).toFinset = ∅) ∧
    ((identicalCommon env pA pB).toFinset ∩ (divergentCommon env pA pB).toFinset = ∅) ∧
    ((uniqueToA env pA pB).toFinset ∪ (identicalCommon env pA pB).toFinset ∪
        (divergentCommon env pA pB).toFinset ∪ (commonDirs env pA pB).toFinset =
      (relFiles env pA).toFinset) ∧
    ((uniqueToB env pA pB).toFinset ∪ (identicalCommon env pA pB).toFinset ∪
        (divergentCommon env pA pB).toFinset ∪ (commonDirs env pA pB).toFinset =
      (relFiles env pB).toFinset) ∧
    ((uniqueToA env pA pB).toFinset ∪ (uniqueToB env pA pB).toFinset ∪
        (identicalCommon env pA pB).toFinset ∪ (divergentCommon env pA pB).toFinset ∪
        (commonDirs env pA pB).toFinset =
      (relFiles env pA).toFinset ∪ (relFiles env pB).toFinset) := by
  refine ⟨?_, ?_, ?_, ?_, ?_, ?_, ?_, ?_, ?_⟩ <;>
    · ext f
      simp only [Finset.mem_inter, Finset.mem_union, Finset.not_mem_empty, iff_false,
        not_and, List.mem_toFinset, mem_uniqueToA, mem_uniqueToB, mem_identicalCommon,
        mem_divergentCommon, mem_commonDirs]
      cases hd : (env.statFile pA f).hasFiles <;>
        by_cases heq : env.extractFile pA f = env.extractFile pB f <;>
          simp [hd, heq] <;> tauto

theorem machoOk_iff {bs : List Nat} :
    machoOk bs = true ↔ ∃ m, readUInt32LE bs = some m ∧ m ∈ MACHO_MAGIC := by
  unfold machoOk
  cases h : readUInt32LE bs <;> simp [h]

theorem readUInt32LE_eq_none_iff {bs : List Nat} :
    readUInt32LE bs = none ↔ bs.length < 4 := by
  rcases bs with _ | ⟨b0, _ | ⟨b1, _ | ⟨b2, _ | ⟨b3, rest⟩⟩⟩⟩ <;> simp [readUInt32LE]

theorem checkUniqueLoop_ok {env : AsarEnv} {archive : String} {other : List String}
    {allow : Option String} :
    ∀ files, (∀ f ∈ files, f ∉ other → gateOk env allow f = true) →
      checkUniqueLoop env archive other allow files = .ok () := by
  intro files
  induction files with
  | nil => intro _; rfl
  | cons f rest ih =>
    intro h
    by_cases hf : f ∈ other
    · simpa [checkUniqueLoop, hf] using ih (fun g hg hg' => h g (List.mem_cons_of_mem f hg) hg')
    · have hg := h f (List.mem_cons_self f rest) hf
      simp only [checkUniqueLoop, if_neg hf, checkSingleArch, hg, if_true]
      exact ih (fun g hgg hg' => h g (List.mem_cons_of_mem f hgg) hg')

theorem checkUniqueLoop_err {env : AsarEnv} {archive : String} {other : List String}
    {allow : Option String} :
    ∀ files, (∃ f ∈ files, f ∉ other ∧ gateOk env allow f = false) →
      ∃ p, checkUniqueLoop env archive other allow files =
          .error (.unmatchedUniqueFile archive p allow) ∧
        p ∈ files ∧ p ∉ other ∧ gateOk env allow p = false := by
  intro files
  induction files with
  | nil => rintro ⟨f, hf, _⟩; cases hf
  | cons f rest ih =>
    rintro ⟨g, hg, hgo, hgate⟩
    by_cases hf : f ∈ other
    · have hgr : g ∈ rest := by
        rcases List.mem_cons.mp hg with rfl | h
        · exact absurd hf hgo
        · exact h
      obtain ⟨p, hp, hpm, hpo, hpg⟩ := ih ⟨g, hgr, hgo, hgate⟩
      exact ⟨p, by simpa [checkUniqueLoop, hf] using hp, List.mem_cons_of_mem f hpm, hpo, hpg⟩
    · cases hgf : gateOk env allow f with
      | false =>
        refine ⟨f, ?_, List.mem_cons_self f rest, hf, hgf⟩
        simp [checkUniqueLoop, hf, checkSingleArch, hgf]
      | true =>
        have hgr : g ∈ rest := by
          rcases List.mem_cons.mp hg with rfl | h
          · exact absurd hgf (by simp [hgate])
          · exact h
        obtain ⟨p, hp, hpm, hpo, hpg⟩ := ih ⟨g, hgr, hgo, hgate⟩
        refine ⟨p, ?_, List.mem_cons_of_mem f hpm, hpo, hpg⟩
        simpa [checkUniqueLoop, hf, checkSingleArch, hgf] using hp

theorem collectUniqueLoop_ok {env : AsarEnv} {archive : String} {other : List String}
    {allow : Option String} :
    ∀ files, (∀ f ∈ files, f ∉ other → gateOk env allow f = true) →
      collectUniqueLoop env archive other allow files =
        .ok (files.filter (fun f => decide (f ∉ other))) := by
  intro files
  induction files with
  | nil => intro _; rfl
  | cons f rest ih =>
    intro h
    have ihr := ih (fun g hg hg' => h g (List.mem_cons_of_mem f hg) hg')
    by_cases hf : f ∈ other
    · simpa [collectUniqueLoop, hf, List.filter_cons] using ihr
    · have hg := h f (List.mem_cons_self f rest) hf
      simp [collectUniqueLoop, hf, checkSingleArch, hg, ihr, List.filter_cons]

theorem collectUniqueLoop_err {env : AsarEnv} {archive : String} {other : List String}
    {allow : Option String} :
    ∀ files, (∃ f ∈ files, f ∉ other ∧ gateOk env allow f = false) →
      ∃ p, collectUniqueLoop env archive other allow files =
          .error (.unmatchedUniqueFile archive p allow) ∧
        p ∈ files ∧ p ∉ other ∧ gateOk env allow p = false := by
  intro files
  induction files with
  | nil => rintro ⟨f, hf, _⟩; cases hf
  | cons f rest ih =>
    rintro ⟨g, hg, hgo, hgate⟩
    by_cases hf : f ∈ other
    · have hgr : g ∈ rest := by
        rcases List.mem_cons.mp hg with rfl | h
        · exact absurd hf hgo
        · exact h
      obtain ⟨p, hp, hpm, hpo, hpg⟩ := ih ⟨g, hgr, hgo, hgate⟩
      exact ⟨p, by simpa [collectUniqueLoop, hf] using hp, List.mem_cons_of_mem f hpm, hpo, hpg⟩
    · cases hgf : gateOk env allow f with
      | false =>
        refine ⟨f, ?_, List.mem_cons_self f rest, hf, hgf⟩
        simp [collectUniqueLoop, hf, checkSingleArch, hgf]
      | true =>
        have hgr : g ∈ rest := by
          rcases List.mem_cons.mp hg with rfl | h
          · exact absurd hgf (by simp [hgate])
          · exact h
        obtain ⟨p, hp, hpm, hpo, hpg⟩ := ih ⟨g, hgr, hgo, hgate⟩
        refine ⟨p, ?_, List.mem_cons_of_mem f hpm, hpo, hpg⟩
        simp only [collectUniqueLoop, if_neg hf, checkSingleArch, hgf, if_true, hp]

/-- The condition under which the common-file loop records a file as a
binding to be merged: common, a non-directory by the x64 stat, divergent
content, and a recognized x64-side magic number. -/
def bindingPred (env : AsarEnv) (x64P arm64P : String) (other : List String)
    (f : String) : Bool :=
  decide (f ∈ other) && !(env.statFile x64P f).hasFiles &&
    !decide (env.extractFile x64P f = env.extractFile arm64P f) &&
    machoOk (env.extractFile x64P f)

theorem commonLoop_ok {env : AsarEnv} {x64P arm64P : String} {other : List String} :
    ∀ files,
      (∀ f ∈ files, f ∈ other → (env.statFile x64P f).hasFiles = false →
        env.extractFile x64P f ≠ env.extractFile arm64P f →
        machoOk (env.extractFile x64P f) = true) →
      commonLoop env x64P arm64P other files =
        .ok (files.filter (bindingPred env x64P arm64P other)) := by
  intro files
  induction files with
  | nil => intro _; rfl
  | cons f rest ih =>
    intro h
    have ihr := ih (fun g hg => h g (List.mem_cons_of_mem f hg))
    by_cases hf : f ∈ other
    · by_cases hd : (env.statFile x64P f).hasFiles
      · simp [commonLoop, hf, checkCommonFile, hd, ihr, List.filter_cons, bindingPred]
      · by_cases heq : env.extractFile x64P f = env.extractFile arm64P f
        · simp [commonLoop, hf, checkCommonFile, hd, heq, ihr, List.filter_cons, bindingPred]
        · have hm := h f (List.mem_cons_self f rest) hf (by simp [hd]) heq
          obtain ⟨m, hr, hmm⟩ := machoOk_iff.mp hm
          simp [commonLoop, hf, checkCommonFile, hd, heq, hr, hmm, ihr,
            List.filter_cons, bindingPred, hm]
    · simp [commonLoop, hf, ihr, List.filter_cons, bindingPred]

theorem commonLoop_err_nonMacho {env : AsarEnv} {x64P arm64P : String}
    {other : List String} :
    ∀ files,
      (∀ f ∈ files, f ∈ other → (env.statFile x64P f).hasFiles = false →
        env.extractFile x64P f ≠ env.extractFile arm64P f →
        readUInt32LE (env.extractFile x64P f) ≠ none) →
      (∃ f ∈ files, f ∈ other ∧ (env.statFile x64P f).hasFiles = false ∧
        env.extractFile x64P f ≠ env.extractFile arm64P f ∧
        machoOk (env.extractFile x64P f) = false) →
      ∃ g, commonLoop env x64P arm64P other files = .error (.nonMacho g) ∧
        g ∈ files ∧ g ∈ other ∧ (env.statFile x64P g).hasFiles = false ∧
        env.extractFile x64P g ≠ env.extractFile arm64P g ∧
        machoOk (env.extractFile x64P g) = false := by
  intro files
  induction files with
  | nil => rintro _ ⟨f, hf, _⟩; cases hf
  | cons f rest ih =>
    rintro hall ⟨g, hg, hgo, hgd, hgne, hgm⟩
    have hallr : ∀ f ∈ rest, f ∈ other → (env.statFile x64P f).hasFiles = false →
        env.extractFile x64P f ≠ env.extractFile arm64P f →
        readUInt32LE (env.extractFile x64P f) ≠ none :=
      fun p hp => hall p (List.mem_cons_of_mem f hp)
    by_cases hf : f ∈ other
    · by_cases hd : (env.statFile x64P f).hasFiles
      · have hgr : g ∈ rest := by
          rcases List.mem_cons.mp hg with rfl | h
          · exact absurd hd (by simp [hgd])
          · exact h
        obtain ⟨p, hp, hpm, hrest⟩ := ih hallr ⟨g, hgr, hgo, hgd, hgne, hgm⟩
        exact ⟨p, by simpa [commonLoop, hf, checkCommonFile, hd] using hp,
          List.mem_cons_of_mem f hpm, hrest⟩
      · by_cases heq : env.extractFile x64P f = env.extractFile arm64P f
        · have hgr : g ∈ rest := by
            rcases List.mem_cons.mp hg with rfl | h
            · exact absurd heq hgne
            · exact h
          obtain ⟨p, hp, hpm, hrest⟩ := ih hallr ⟨g, hgr, hgo, hgd, hgne, hgm⟩
          exact ⟨p, by simpa [commonLoop, hf, checkCommonFile, hd, heq] using hp,
            List.mem_cons_of_mem f hpm, hrest⟩
        · have hread := hall f (List.mem_cons_self f rest) hf (by simp [hd]) heq
          cases hr : readUInt32LE (env.extractFile x64P f) with
          | none => exact absurd hr hread
          | some m =>
            by_cases hmm : m ∈ MACHO_MAGIC
            · have hmok : machoOk (env.extractFile x64P f) = true :=
                machoOk_iff.mpr ⟨m, hr, hmm⟩
              have hgr : g ∈ rest := by
                rcases List.mem_cons.mp hg with rfl | h
                · exact absurd hmok (by simp [hgm])
                · exact h
              obtain ⟨p, hp, hpm, hrest⟩ := ih hallr ⟨g, hgr, hgo, hgd, hgne, hgm⟩
              refine ⟨p, ?_, List.mem_cons_of_mem f hpm, hrest⟩
              simp only [commonLoop, if_pos hf, checkCommonFile, if_neg hd, if_neg heq,
                hr, if_pos hmm, hp]
            · have hmok : machoOk (env.extractFile x64P f) = false := by
                unfold machoOk
                simp [hr, hmm]
              refine ⟨f, ?_, List.mem_cons_self f rest, hf, by simp [hd], heq, hmok⟩
              simp [commonLoop, hf, checkCommonFile, hd, heq, hr, hmm]
    · have hgr : g ∈ rest := by
        rcases List.mem_cons.mp hg with rfl | h
        · exact absurd hgo hf
        · exact h
      obtain ⟨p, hp, hpm, hrest⟩ := ih hallr ⟨g, hgr, hgo, hgd, hgne, hgm⟩
      exact ⟨p, by simpa [commonLoop, hf] using hp, List.mem_cons_of_mem f hpm, hrest⟩

theorem commonLoop_err_range {env : AsarEnv} {x64P arm64P : String}
    {other : List String} :
    ∀ files,
      (∀ f ∈ files, f ∈ other → (env.statFile x64P f).hasFiles = false →
        env.extractFile x64P f ≠ env.extractFile arm64P f →
        readUInt32LE (env.extractFile x64P f) ≠ none →
        machoOk (env.extractFile x64P f) = true) →
      (∃ f ∈ files, f ∈ other ∧ (env.statFile x64P f).hasFiles = false ∧
        env.extractFile x64P f ≠ env.extractFile arm64P f ∧
        readUInt32LE (env.extractFile x64P f) = none) →
      ∃ g, commonLoop env x64P arm64P other files = .error (.rangeError g) ∧
        g ∈ files ∧ g ∈ other ∧ (env.statFile x64P g).hasFiles = false ∧
        env.extractFile x64P g ≠ env.extractFile arm64P g ∧
        readUInt32LE (env.extractFile x64P g) = none := by
  intro files
  induction files with
  | nil => rintro _ ⟨f, hf, _⟩; cases hf
  | cons f rest ih =>
    rintro hall ⟨g, hg, hgo, hgd, hgne, hgr0⟩
    have hallr : ∀ f ∈ rest, f ∈ other → (env.statFile x64P f).hasFiles = false →
        env.extractFile x64P f ≠ env.extractFile arm64P f →
        readUInt32LE (env.extractFile x64P f) ≠ none →
        machoOk (env.extractFile x64P f) = true :=
      fun p hp => hall p (List.mem_cons_of_mem f hp)
    by_cases hf : f ∈ other
    · by_cases hd : (env.statFile x64P f).hasFiles
      · have hgr : g ∈ rest := by
          rcases List.mem_cons.mp hg with rfl | h
          · exact absurd hd (by simp [hgd])
          · exact h
        obtain ⟨p, hp, hpm, hrest⟩ := ih hallr ⟨g, hgr, hgo, hgd, hgne, hgr0⟩
        exact ⟨p, by simpa [commonLoop, hf, checkCommonFile, hd] using hp,
          List.mem_cons_of_mem f hpm, hrest⟩
      · by_cases heq : env.extractFile x64P f = env.extractFile arm64P f
        · have hgr : g ∈ rest := by
            rcases List.mem_cons.mp hg with rfl | h
            · exact absurd heq hgne
            · exact h
          obtain ⟨p, hp, hpm, hrest⟩ := ih hallr ⟨g, hgr, hgo, hgd, hgne, hgr0⟩
          exact ⟨p, by simpa [commonLoop, hf, checkCommonFile, hd, heq] using hp,
            List.mem_cons_of_mem f hpm, hrest⟩
        · cases hr : readUInt32LE (env.extractFile x64P f) with
          | none =>
            refine ⟨f, ?_, List.mem_cons_self f rest, hf, by simp [hd], heq, hr⟩
            simp [commonLoop, hf, checkCommonFile, hd, heq, hr]
          | some m =>
            have hmok := hall f (List.mem_cons_self f rest) hf (by simp [hd]) heq
              (by simp [hr])
            obtain ⟨m', hr', hmm'⟩ := machoOk_iff.mp hmok
            have hmm : m ∈ MACHO_MAGIC := by
              rw [hr] at hr'
              cases hr'
              exact hmm'
            have hgr : g ∈ rest := by
              rcases List.mem_cons.mp hg with rfl | h
              · exact absurd hr (by simp [hgr0])
              · exact h
            obtain ⟨p, hp, hpm, hrest⟩ := ih hallr ⟨g, hgr, hgo, hgd, hgne, hgr0⟩
            refine ⟨p, ?_, List.mem_cons_of_mem f hpm, hrest⟩
            simp only [commonLoop, if_pos hf, checkCommonFile, if_neg hd, if_neg heq,
              hr, if_pos hmm, hp]
    · have hgr : g ∈ rest := by
        rcases List.mem_cons.mp hg with rfl | h
        · exact absurd hgo hf
        · exact h
      obtain ⟨p, hp, hpm, hrest⟩ := ih hallr ⟨g, hgr, hgo, hgd, hgne, hgr0⟩
      exact ⟨p, by simpa [commonLoop, hf] using hp, List.mem_cons_of_mem f hpm, hrest⟩

theorem validate_ok {env : AsarEnv} {xP aP : String} {allow : Option String}
    (h1 : ∀ f ∈ relFiles env xP, f ∉ relFiles env aP → gateOk env allow f = true)
    (h2 : ∀ f ∈ relFiles env aP, f ∉ relFiles env xP → gateOk env allow f = true)
    (h3 : ∀ f ∈ relFiles env xP, f ∈ relFiles env aP →
      (env.statFile xP f).hasFiles = false →
      env.extractFile xP f ≠ env.extractFile aP f →
      machoOk (env.extractFile xP f) = true) :
    validate env xP aP allow =
      .ok ⟨(relFiles env aP).filter (fun f => decide (f ∉ relFiles env xP)),
        (relFiles env xP).filter (bindingPred env xP aP (relFiles env aP)),
        buildUnpacked env xP (relFiles env xP) ++ buildUnpacked env aP (relFiles env aP)⟩ := by
  simp only [validate]
  rw [checkUniqueLoop_ok _ h1, collectUniqueLoop_ok _ h2,
    commonLoop_ok _ (fun f hf hfo hd hne => h3 f hf hfo hd hne)]

theorem validate_err_unmatched {env : AsarEnv} {xP aP : String} {allow : Option String}
    (h : ∃ f, ((f ∈ relFiles env xP ∧ f ∉ relFiles env aP) ∨
        (f ∈ relFiles env aP ∧ f ∉ relFiles env xP)) ∧ gateOk env allow f = false) :
    ∃ a p, validate env xP aP allow = .error (.unmatchedUniqueFile a p allow) ∧
      gateOk env allow p = false ∧
      ((a = xP ∧ p ∈ relFiles env xP ∧ p ∉ relFiles env aP) ∨
        (a = aP ∧ p ∈ relFiles env aP ∧ p ∉ relFiles env xP)) := by
  by_cases hx : ∃ f ∈ relFiles env xP, f ∉ relFiles env aP ∧ gateOk env allow f = false
  · obtain ⟨p, hp, hpm, hpo, hpg⟩ := checkUniqueLoop_err (relFiles env xP) hx
    refine ⟨xP, p, ?_, hpg, Or.inl ⟨rfl, hpm, hpo⟩⟩
    simp only [validate]
    rw [hp]
  · have h1 : ∀ f ∈ relFiles env xP, f ∉ relFiles env aP → gateOk env allow f = true := by
      intro f hf hfo
      cases hg : gateOk env allow f with
      | false => exact absurd ⟨f, hf, hfo, hg⟩ hx
      | true => rfl
    obtain ⟨f, hside, hgate⟩ := h
    have hB : f ∈ relFiles env aP ∧ f ∉ relFiles env xP := by
      rcases hside with ⟨hfA, hfnB⟩ | hb
      · exact absurd ⟨f, hfA, hfnB, hgate⟩ hx
      · exact hb
    obtain ⟨p, hp, hpm, hpo, hpg⟩ :=
      @collectUniqueLoop_err env aP (relFiles env xP) allow (relFiles env aP)
        ⟨f, hB.1, hB.2, hgate⟩
    refine ⟨aP, p, ?_, hpg, Or.inr ⟨rfl, hpm, hpo⟩⟩
    simp only [validate]
    rw [checkUniqueLoop_ok _ h1, hp]

/-- C3: if some path present in only one of the two archives fails the
allow gate (the pattern is absent or does not match it), `mergeASARs`
fails with an `unmatchedUniqueFile` error identifying the archive and a
unique unmatched path, and its effect trace is empty: no temporary
directory, no extraction, and in particular no output archive is ever
created. -/
theorem mergeASARs_unmatchedUnique {env : AsarEnv} {xP aP oP : String}
    {allow : Option String}
    (h : ∃ f, ((f ∈ relFiles env xP ∧ f ∉ relFiles env aP) ∨
        (f ∈ relFiles env aP ∧ f ∉ relFiles env xP)) ∧ gateOk env allow f = false) :
    ∃ a p, mergeASARs env xP aP oP allow =
        (.error (.unmatchedUniqueFile a p allow), []) ∧
      gateOk env allow p = false ∧
      ((a = xP ∧ p ∈ relFiles env xP ∧ p ∉ relFiles env aP) ∨
        (a = aP ∧ p ∈ relFiles env aP ∧ p ∉ relFiles env xP)) := by
  obtain ⟨a, p, hv, hpg, hside⟩ := validate_err_unmatched h
  refine ⟨a, p, ?_, hpg, hside⟩
  simp only [mergeASARs]
  rw [hv]

/-- A concrete pair of archives for exercising the allow gate: the x64
archive carries an extra file `b` and no allow pattern is supplied. -/
def envC3 : AsarEnv where
  listPackage := fun p => if p = "x64.asar" then ["a", "b"] else ["a"]
  statFile := fun _ _ => ⟨false, none⟩
  extractFile := fun _ _ => [0]
  minimatch := fun _ _ => false
  lipoCreate := fun s d => .ok (s ++ d)
  remove := fun _ => .ok ()

/-- Witness for C3 at a concrete input: archive pair with unique unmatched
file `b` and no allow pattern. -/
theorem mergeASARs_unmatchedUnique_witness :
    ∃ a p, mergeASARs envC3 "x64.asar" "arm64.asar" "out.asar" none =
        (.error (.unmatchedUniqueFile a p none), []) ∧
      gateOk envC3 none p = false ∧
      ((a = "x64.asar" ∧ p ∈ relFiles envC3 "x64.asar" ∧ p ∉ relFiles envC3 "arm64.asar") ∨
        (a = "arm64.asar" ∧ p ∈ relFiles envC3 "arm64.asar" ∧ p ∉ relFiles envC3 "x64.asar")) :=
  mergeASARs_unmatchedUnique ⟨"b", Or.inl ⟨by decide, by decide⟩, rfl⟩

theorem validate_err_nonMacho {env : AsarEnv} {xP aP : String} {allow : Option String}
    (h1 : ∀ f ∈ relFiles env xP, f ∉ relFiles env aP → gateOk env allow f = true)
    (h2 : ∀ f ∈ relFiles env aP, f ∉ relFiles env xP → gateOk env allow f = true)
    (h3 : ∀ f ∈ divergentCommon env xP aP, readUInt32LE (env.extractFile xP f) ≠ none)
    (h4 : ∃ f ∈ divergentCommon env xP aP, machoOk (env.extractFile xP f) = false) :
    ∃ g, validate env xP aP allow = .error (.nonMacho g) ∧
      g ∈ divergentCommon env xP aP ∧ machoOk (env.extractFile xP g) = false := by
  obtain ⟨f0, hf0, hf0m⟩ := h4
  have hf0' := mem_divergentCommon.mp hf0
  obtain ⟨g, hloop, hgA, hgB, hgd, hgne, hgm⟩ :=
    @commonLoop_err_nonMacho env xP aP (relFiles env aP) (relFiles env xP)
      (fun p hp hpo hpd hpne =>
        h3 p (mem_divergentCommon.mpr ⟨⟨hp, hpo⟩, hpd, hpne⟩))
      ⟨f0, hf0'.1.1, hf0'.1.2, hf0'.2.1, hf0'.2.2, hf0m⟩
  refine ⟨g, ?_, mem_divergentCommon.mpr ⟨⟨hgA, hgB⟩, hgd, hgne⟩, hgm⟩
  simp only [validate]
  rw [checkUniqueLoop_ok _ h1, collectUniqueLoop_ok _ h2, hloop]

theorem validate_err_range {env : AsarEnv} {xP aP : String} {allow : Option String}
    (h1 : ∀ f ∈ relFiles env xP, f ∉ relFiles env aP → gateOk env allow f = true)
    (h2 : ∀ f ∈ relFiles env aP, f ∉ relFiles env xP → gateOk env allow f = true)
    (h3 : ∀ f ∈ divergentCommon env xP aP, readUInt32LE (env.extractFile xP f) ≠ none →
      machoOk (env.extractFile xP f) = true)
    (h4 : ∃ f ∈ divergentCommon env xP aP, readUInt32LE (env.extractFile xP f) = none) :
    ∃ g, validate env xP aP allow = .error (.rangeError g) ∧
      g ∈ divergentCommon env xP aP ∧ readUInt32LE (env.extractFile xP g) = none := by
  obtain ⟨f0, hf0, hf0r⟩ := h4
  have hf0' := mem_divergentCommon.mp hf0
  obtain ⟨g, hloop, hgA, hgB, hgd, hgne, hgr⟩ :=
    @commonLoop_err_range env xP aP (relFiles env aP) (relFiles env xP)
      (fun p hp hpo hpd hpne hpr =>
        h3 p (mem_divergentCommon.mpr ⟨⟨hp, hpo⟩, hpd, hpne⟩) hpr)
      ⟨f0, hf0'.1.1, hf0'.1.2, hf0'.2.1, hf0'.2.2, hf0r⟩
  refine ⟨g, ?_, mem_divergentCommon.mpr ⟨⟨hgA, hgB⟩, hgd, hgne⟩, hgr⟩
  simp only [validate]
  rw [checkUniqueLoop_ok _ h1, collectUniqueLoop_ok _ h2, hloop]

/-- C4: when every unique path passes the allow gate, every divergent
common file's x64 content is at least four bytes long, and some divergent
common file does not carry a recognized Mach-O magic, `mergeASARs` fails
with the `nonMacho` error naming such a file and its effect trace is
empty: the failure happens before any temporary workspace directory is
created and before any extraction, so no temporary state exists. -/
theorem mergeASARs_nonBinaryDivergence {env : AsarEnv} {xP aP oP : String}
    {allow : Option String}
    (h1 : ∀ f ∈ relFiles env xP, f ∉ relFiles env aP → gateOk env allow f = true)
    (h2 : ∀ f ∈ relFiles env aP, f ∉ relFiles env xP → gateOk env allow f = true)
    (h3 : ∀ f ∈ divergentCommon env xP aP, readUInt32LE (env.extractFile xP f) ≠ none)
    (h4 : ∃ f ∈ divergentCommon env xP aP, machoOk (env.extractFile xP f) = false) :
    ∃ g, mergeASARs env xP aP oP allow = (.error (.nonMacho g), []) ∧
      g ∈ divergentCommon env xP aP ∧ machoOk (env.extractFile xP g) = false := by
  obtain ⟨g, hv, hgm, hgf⟩ := validate_err_nonMacho h1 h2 h3 h4
  refine ⟨g, ?_, hgm, hgf⟩
  simp only [mergeASARs]
  rw [hv]

/-- A concrete archive pair whose single shared file diverges and is not a
Mach-O binary on the x64 side. -/
def envC4 : AsarEnv where
  listPackage := fun _ => ["f"]
  statFile := fun _ _ => ⟨false, none⟩
  extractFile := fun p _ => if p = "x64.asar" then [1, 2, 3, 4] else [5, 6, 7, 8]
  minimatch := fun _ _ => false
  lipoCreate := fun s d => .ok (s ++ d)
  remove := fun _ => .ok ()

/-- Witness for C4 at a concrete input: a divergent common plain file makes
the merge fail with `nonMacho` and an empty effect trace. -/
theorem mergeASARs_nonBinaryDivergence_witness :
    ∃ g, mergeASARs envC4 "x64.asar" "arm64.asar" "out.asar" none =
        (.error (.nonMacho g), []) ∧
      g ∈ divergentCommon envC4 "x64.asar" "arm64.asar" ∧
      machoOk (envC4.extractFile "x64.asar" g) = false :=
  mergeASARs_nonBinaryDivergence (by decide) (by decide) (by decide) (by decide)

/-- C9: when every unique path passes the allow gate, every divergent
common file whose x64 content is readable carries a recognized magic, and
some divergent common file's x64 content is shorter than four bytes, the
four-byte little-endian magic read is out of range, and `mergeASARs` fails
with the `rangeError` (out-of-range read) error for such a file rather
than with `nonMacho`; moreover the magic read is defined exactly when the
content has at least four bytes. -/
theorem mergeASARs_rangeError_shortContent {env : AsarEnv} {xP aP oP : String}
    {allow : Option String}
    (h1 : ∀ f ∈ relFiles env xP, f ∉ relFiles env aP → gateOk env allow f = true)
    (h2 : ∀ f ∈ relFiles env aP, f ∉ relFiles env xP → gateOk env allow f = true)
    (h3 : ∀ f ∈ divergentCommon env xP aP, readUInt32LE (env.extractFile xP f) ≠ none →
      machoOk (env.extractFile xP f) = true)
    (h4 : ∃ f ∈ divergentCommon env xP aP, readUInt32LE (env.extractFile xP f) = none) :
    (∃ g, mergeASARs env xP aP oP allow = (.error (.rangeError g), []) ∧
      g ∈ divergentCommon env xP aP ∧ readUInt32LE (env.extractFile xP g) = none ∧
      (env.extractFile xP g).length < 4) ∧
    (∀ bs : List Nat, readUInt32LE bs = none ↔ bs.length < 4) := by
  obtain ⟨g, hv, hgm, hgr⟩ := validate_err_range h1 h2 h3 h4
  refine ⟨⟨g, ?_, hgm, hgr, readUInt32LE_eq_none_iff.mp hgr⟩,
    fun bs => readUInt32LE_eq_none_iff⟩
  simp only [mergeASARs]
  rw [hv]

/-- A concrete archive pair whose single shared file diverges and has a
two-byte x64 content, too short for the four-byte magic read. -/
def envC9 : AsarEnv where
  listPackage := fun _ => ["f"]
  statFile := fun _ _ => ⟨false, none⟩
  extractFile := fun p _ => if p = "x64.asar" then [1, 2] else [3]
  minimatch := fun _ _ => false
  lipoCreate := fun s d => .ok (s ++ d)
  remove := fun _ => .ok ()

/-- Witness for C9 at a concrete input: a divergent common file with a
two-byte x64 content produces `rangeError`, not `nonMacho`. -/
theorem mergeASARs_rangeError_shortContent_witness :
    (∃ g, mergeASARs envC9 "x64.asar" "arm64.asar" "out.asar" none =
        (.error (.rangeError g), []) ∧
      g ∈ divergentCommon envC9 "x64.asar" "arm64.asar" ∧
      readUInt32LE (envC9.extractFile "x64.asar" g) = none ∧
      (envC9.extractFile "x64.asar" g).length < 4) ∧
    (∀ bs : List Nat, readUInt32LE bs = none ↔ bs.length < 4) :=
  mergeASARs_rangeError_shortContent (by decide) (by decide) (by decide) (by decide)

theorem copyLoop_paths {env : AsarEnv} {aP : String} :
    ∀ l t, ((copyLoop env aP t l).1).paths = t.paths ++ l := by
  intro l
  induction l with
  | nil => intro t; simp [copyLoop]
  | cons f rest ih =>
    intro t
    by_cases hd : (env.statFile aP f).hasFiles <;>
      simp [copyLoop, hd, ih, List.append_assoc]

theorem copyLoop_content_not_mem {env : AsarEnv} {aP : String} :
    ∀ l t f, f ∉ l → ((copyLoop env aP t l).1).content f = t.content f := by
  intro l
  induction l with
  | nil => intro t f _; rfl
  | cons g rest ih =>
    intro t f hf
    have hfg : f ≠ g := fun h => hf (h ▸ List.mem_cons_self g rest)
    have hfr : f ∉ rest := fun h => hf (List.mem_cons_of_mem g h)
    by_cases hd : (env.statFile aP g).hasFiles
    · simp [copyLoop, hd, ih _ _ hfr]
    · simp [copyLoop, hd, ih _ _ hfr, updateFn, hfg]

theorem copyLoop_no_lipo {env : AsarEnv} {aP : String} :
    ∀ l t f, Event.lipo f ∉ (copyLoop env aP t l).2 := by
  intro l
  induction l with
  | nil => intro t f h; cases h
  | cons g rest ih =>
    intro t f h
    by_cases hd : (env.statFile aP g).hasFiles <;>
      · simp [copyLoop, hd] at h
        exact ih _ f h

theorem lipoLoop_ok {env : AsarEnv} {aP : String}
    (hl : ∀ s d, ∃ v, env.lipoCreate s d = .ok v) :
    ∀ l t, ∃ t', lipoLoop env aP t l = (.ok t', l.map Event.lipo) ∧
      t'.paths = t.paths ∧ ∀ f, f ∉ l → t'.content f = t.content f := by
  intro l
  induction l with
  | nil => intro t; exact ⟨t, rfl, rfl, fun _ _ => rfl⟩
  | cons b rest ih =>
    intro t
    obtain ⟨v, hv⟩ := hl (env.extractFile aP b) (t.content b)
    obtain ⟨t', ht', hp, hc⟩ := ih ⟨t.paths, updateFn t.content b v⟩
    refine ⟨t', ?_, hp, ?_⟩
    · simp [lipoLoop, hv, ht']
    · intro f hf
      have hfb : f ≠ b := fun h => hf (h ▸ List.mem_cons_self b rest)
      have hfr : f ∉ rest := fun h => hf (List.mem_cons_of_mem b h)
      rw [hc f hfr]
      simp [updateFn, hfb]

theorem lipoLoop_events_sub {env : AsarEnv} {aP : String} :
    ∀ l t f, Event.lipo f ∈ (lipoLoop env aP t l).2 → f ∈ l := by
  intro l
  induction l with
  | nil => intro t f h; cases h
  | cons b rest ih =>
    intro t f h
    cases hv : env.lipoCreate (env.extractFile aP b) (t.content b) with
    | error msg =>
      simp [lipoLoop, hv] at h
      simp [h]
    | ok v =>
      simp [lipoLoop, hv] at h
      rcases h with h | h
      · simp [h]
      · exact List.mem_cons_of_mem b (ih _ f h)

theorem mergePhase2_ok {env : AsarEnv} {xP aP oP : String} {plan : Plan}
    (hl : ∀ s d, ∃ v, env.lipoCreate s d = .ok v) :
    ∃ res, (mergePhase2 env xP aP oP plan).1 = .ok res ∧
      res.entries = relFiles env xP ++ plan.arm64Unique ∧
      res.unpackList = plan.unpackedFiles ∧
      ∀ f, f ∉ plan.arm64Unique → f ∉ plan.commonBindings →
        res.content f = env.extractFile xP f := by
  obtain ⟨t2, hlip, hpaths, hcont⟩ := @lipoLoop_ok env aP hl plan.commonBindings
    (copyLoop env aP ⟨relFiles env xP, env.extractFile xP⟩ plan.arm64Unique).1
  refine ⟨⟨t2.paths, t2.content, plan.unpackedFiles⟩, ?_, ?_, rfl, ?_⟩
  · simp [mergePhase2, hlip]
  · simp [hpaths, copyLoop_paths]
  · intro f hfu hfc
    show t2.content f = env.extractFile xP f
    rw [hcont f hfc, copyLoop_content_not_mem _ _ _ hfu]

theorem mergePhase2_lipo_events {env : AsarEnv} {xP aP oP : String} {plan : Plan}
    {f : String} (h : Event.lipo f ∈ (mergePhase2 env xP aP oP plan).2) :
    f ∈ plan.commonBindings := by
  rcases hlv : lipoLoop env aP
      (copyLoop env aP ⟨relFiles env xP, env.extractFile xP⟩ plan.arm64Unique).1
      plan.commonBindings with ⟨lres, levs⟩
  have hsub : Event.lipo f ∈ levs → f ∈ plan.commonBindings := by
    intro hin
    exact lipoLoop_events_sub plan.commonBindings _ f (by rw [hlv]; exact hin)
  cases lres with
  | error e =>
    simp only [mergePhase2, hlv] at h
    simp at h
    rcases h with h | h
    · exact absurd h (copyLoop_no_lipo _ _ f)
    · exact hsub h
  | ok t2 =>
    simp only [mergePhase2, hlv] at h
    simp at h
    rcases h with h | h
    · exact absurd h (copyLoop_no_lipo _ _ f)
    · exact hsub h

/-- C1: when every path unique to one archive passes the allow gate, every
divergent common file carries a recognized x64-side Mach-O magic, the
external lipo tool succeeds, and the temporary directories are removable,
`mergeASARs` completes without an error and the output archive's entry set
is exactly the x64 archive's path set together with the paths unique to
the arm64 archive. -/
theorem mergeASARs_success {env : AsarEnv} {xP aP oP : String} {allow : Option String}
    (h1 : ∀ f ∈ relFiles env xP, f ∉ relFiles env aP → gateOk env allow f = true)
    (h2 : ∀ f ∈ relFiles env aP, f ∉ relFiles env xP → gateOk env allow f = true)
    (h3 : ∀ f ∈ divergentCommon env xP aP, machoOk (env.extractFile xP f) = true)
    (hl : ∀ s d, ∃ v, env.lipoCreate s d = .ok v)
    (hr1 : env.remove x64DirName = .ok ())
    (hr2 : env.remove arm64DirName = .ok ()) :
    ∃ res, (mergeASARs env xP aP oP allow).1 = .ok res ∧
      ∀ p, p ∈ res.entries ↔
        p ∈ relFiles env xP ∨ (p ∈ relFiles env aP ∧ p ∉ relFiles env xP) := by
  have hv := @validate_ok env xP aP allow h1 h2
    (fun f hf hfo hd hne => h3 f (mem_divergentCommon.mpr ⟨⟨hf, hfo⟩, hd, hne⟩))
  obtain ⟨res, hres, hent, hup, hcont⟩ := @mergePhase2_ok env xP aP oP
    ⟨(relFiles env aP).filter (fun f => decide (f ∉ relFiles env xP)),
      (relFiles env xP).filter (bindingPred env xP aP (relFiles env aP)),
      buildUnpacked env xP (relFiles env xP) ++ buildUnpacked env aP (relFiles env aP)⟩ hl
  refine ⟨res, ?_, ?_⟩
  · simp only [mergeASARs, hv, hr1, hr2]
    exact hres
  · intro p
    rw [hent]
    simp only [List.mem_append, List.mem_filter, decide_eq_true_eq]

/-- A concrete instance of the spec's success scenario: `a` identical on
both sides, `bin` divergent with Mach-O magic `0xfeedface` on the x64
side, `b-only.txt` unique to the arm64 archive and matched by the allow
pattern. -/
def envC1 : AsarEnv where
  listPackage := fun p =>
    if p = "arm64.asar" then ["a", "bin", "b-only.txt"] else ["a", "bin"]
  statFile := fun _ _ => ⟨false, none⟩
  extractFile := fun p f =>
    if f = "bin" then
      if p = "x64.asar" then [0xce, 0xfa, 0xed, 0xfe] else [1, 2, 3, 4]
    else [7]
  minimatch := fun f pat => decide (f = pat)
  lipoCreate := fun s d => .ok (s ++ d)
  remove := fun _ => .ok ()

/-- Witness for C1 at a concrete input: the merge succeeds and the output
entries are the x64 paths plus the arm64-unique path. -/
theorem mergeASARs_success_witness :
    ∃ res, (mergeASARs envC1 "x64.asar" "arm64.asar" "out.asar" (some "b-only.txt")).1 =
        .ok res ∧
      ∀ p, p ∈ res.entries ↔
        p ∈ relFiles envC1 "x64.asar" ∨
          (p ∈ relFiles envC1 "arm64.asar" ∧ p ∉ relFiles envC1 "x64.asar") :=
  mergeASARs_success (by decide) (by decide) (by decide)
    (fun s d => ⟨s ++ d, rfl⟩) rfl rfl

/-- C6: under the same benign conditions as the success theorem, a common
file whose content is byte-identical in both archives is never passed to
the external lipo tool (no `lipo` event for it occurs in the whole effect
trace), and the output's copy of that file is byte-identical to the x64
archive's copy. -/
theorem mergeASARs_identicalCommon {env : AsarEnv} {xP aP oP : String}
    {allow : Option String} {f : String}
    (h1 : ∀ g ∈ relFiles env xP, g ∉ relFiles env aP → gateOk env allow g = true)
    (h2 : ∀ g ∈ relFiles env aP, g ∉ relFiles env xP → gateOk env allow g = true)
    (h3 : ∀ g ∈ divergentCommon env xP aP, machoOk (env.extractFile xP g) = true)
    (hl : ∀ s d, ∃ v, env.lipoCreate s d = .ok v)
    (hr1 : env.remove x64DirName = .ok ())
    (hr2 : env.remove arm64DirName = .ok ())
    (hfA : f ∈ relFiles env xP) (hfB : f ∈ relFiles env aP)
    (hfe : env.extractFile xP f = env.extractFile aP f) :
    ∃ res, (mergeASARs env xP aP oP allow).1 = .ok res ∧
      Event.lipo f ∉ (mergeASARs env xP aP oP allow).2 ∧
      res.content f = env.extractFile xP f := by
  have hv := @validate_ok env xP aP allow h1 h2
    (fun g hg hgo hd hne => h3 g (mem_divergentCommon.mpr ⟨⟨hg, hgo⟩, hd, hne⟩))
  have hfu : f ∉ (relFiles env aP).filter (fun g => decide (g ∉ relFiles env xP)) := by
    simp [List.mem_filter, hfA]
  have hfc : f ∉ (relFiles env xP).filter (bindingPred env xP aP (relFiles env aP)) := by
    simp [List.mem_filter, bindingPred, hfe]
  obtain ⟨res, hres, hent, hup, hcont⟩ := @mergePhase2_ok env xP aP oP
    ⟨(relFiles env aP).filter (fun g => decide (g ∉ relFiles env xP)),
      (relFiles env xP).filter (bindingPred env xP aP (relFiles env aP)),
      buildUnpacked env xP (relFiles env xP) ++ buildUnpacked env aP (relFiles env aP)⟩ hl
  refine ⟨res, ?_, ?_, hcont f hfu hfc⟩
  · simp only [mergeASARs, hv, hr1, hr2]
    exact hres
  · intro hmem
    simp only [mergeASARs, hv, hr1, hr2] at hmem
    simp only [List.mem_append, List.mem_cons, List.mem_singleton] at hmem
    rcases hmem with hmem | hmem | hmem | hmem
    · exact absurd (mergePhase2_lipo_events hmem) hfc
    · cases hmem
    · cases hmem
    · cases hmem

/-- A concrete archive pair with an identical common file `a` and a
divergent Mach-O common file `bin`. -/
def envC6 : AsarEnv where
  listPackage := fun _ => ["a", "bin"]
  statFile := fun _ _ => ⟨false, none⟩
  extractFile := fun p f =>
    if f = "bin" then
      if p = "x64.asar" then [0xce, 0xfa, 0xed, 0xfe] else [1, 2, 3, 4]
    else [7]
  minimatch := fun _ _ => false
  lipoCreate := fun s d => .ok (s ++ d)
  remove := fun _ => .ok ()

/-- Witness for C6 at a concrete input: the identical common file `a` is
never lipo'd and keeps the x64 bytes in the output. -/
theorem mergeASARs_identicalCommon_witness :
    ∃ res, (mergeASARs envC6 "x64.asar" "arm64.asar" "out.asar" none).1 = .ok res ∧
      Event.lipo "a" ∉ (mergeASARs envC6 "x64.asar" "arm64.asar" "out.asar" none).2 ∧
      res.content "a" = envC6.extractFile "x64.asar" "a" :=
  mergeASARs_identicalCommon (by decide) (by decide) (by decide)
    (fun s d => ⟨s ++ d, rfl⟩) rfl rfl (by decide) (by decide) rfl

/-- An archive pair whose single common entry is a directory carrying a
true `unpacked` flag in both archives. -/
def envC8 : AsarEnv where
  listPackage := fun _ => ["d"]
  statFile := fun _ _ => ⟨true, some true⟩
  extractFile := fun _ _ => []
  minimatch := fun _ _ => false
  lipoCreate := fun s d => .ok (s ++ d)
  remove := fun _ => .ok ()

/-- Counterexample to C8 as stated: the entry `d` has a true
`storedUnpacked` flag in both manifests and appears in the output archive,
yet the set of paths passed to the repacker is empty, because
`buildUnpacked` also excludes every entry whose stat carries a `files`
field (a directory).  So the passed set is not the union of all
storedUnpacked-flagged paths restricted to the output. -/
theorem unpackList_counterexample :
    ((mergeASARs envC8 "x64.asar" "arm64.asar" "out.asar" none).1.map
        MergeResult.unpackList = Except.ok []) ∧
    ((mergeASARs envC8 "x64.asar" "arm64.asar" "out.asar" none).1.map
        MergeResult.entries = Except.ok ["d"]) ∧
    (envC8.statFile "x64.asar" "d").unpacked = some true ∧
    (envC8.statFile "arm64.asar" "d").unpacked = some true ∧
    "d" ∈ relFiles envC8 "x64.asar" :=
  ⟨rfl, rfl, rfl, rfl, by decide⟩

/-- C8 amended: the set of paths passed to the repacker as
must-remain-unpacked is the union, across both manifests, of every
non-directory path whose storedUnpacked flag is true; under the conditions
that make the merge succeed, every such path also appears in the output
archive, so the set equals its restriction to output paths. -/
theorem mergeASARs_unpackList {env : AsarEnv} {xP aP oP : String} {allow : Option String}
    (h1 : ∀ f ∈ relFiles env xP, f ∉ relFiles env aP → gateOk env allow f = true)
    (h2 : ∀ f ∈ relFiles env aP, f ∉ relFiles env xP → gateOk env allow f = true)
    (h3 : ∀ f ∈ divergentCommon env xP aP, machoOk (env.extractFile xP f) = true)
    (hl : ∀ s d, ∃ v, env.lipoCreate s d = .ok v)
    (hr1 : env.remove x64DirName = .ok ())
    (hr2 : env.remove arm64DirName = .ok ()) :
    ∃ res, (mergeASARs env xP aP oP allow).1 = .ok res ∧
      (∀ f, f ∈ res.unpackList ↔
        ((f ∈ relFiles env xP ∧ (env.statFile xP f).unpacked = some true ∧
            (env.statFile xP f).hasFiles = false) ∨
          (f ∈ relFiles env aP ∧ (env.statFile aP f).unpacked = some true ∧
            (env.statFile aP f).hasFiles = false))) ∧
      (∀ f ∈ res.unpackList, f ∈ res.entries) := by
  have hv := @validate_ok env xP aP allow h1 h2
    (fun f hf hfo hd hne => h3 f (mem_divergentCommon.mpr ⟨⟨hf, hfo⟩, hd, hne⟩))
  obtain ⟨res, hres, hent, hup, hcont⟩ := @mergePhase2_ok env xP aP oP
    ⟨(relFiles env aP).filter (fun f => decide (f ∉ relFiles env xP)),
      (relFiles env xP).filter (bindingPred env xP aP (relFiles env aP)),
      buildUnpacked env xP (relFiles env xP) ++ buildUnpacked env aP (relFiles env aP)⟩ hl
  have hchar : ∀ f, f ∈ res.unpackList ↔
      ((f ∈ relFiles env xP ∧ (env.statFile xP f).unpacked = some true ∧
          (env.statFile xP f).hasFiles = false) ∨
        (f ∈ relFiles env aP ∧ (env.statFile aP f).unpacked = some true ∧
          (env.statFile aP f).hasFiles = false)) := by
    intro f
    rw [hup]
    simp [buildUnpacked, List.mem_append, List.mem_filter, and_assoc]
  refine ⟨res, ?_, hchar, ?_⟩
  · simp only [mergeASARs, hv, hr1, hr2]
    exact hres
  · intro f hf
    rw [hent]
    rcases (hchar f).mp hf with ⟨hA, _, _⟩ | ⟨hB, _, _⟩
    · exact List.mem_append_left _ hA
    · by_cases hA : f ∈ relFiles env xP
      · exact List.mem_append_left _ hA
      · refine List.mem_append_right _ ?_
        simp [List.mem_filter, hB, hA]

/-- An archive pair with a common unpacked file `u` with identical content
on both sides. -/
def envC8w : AsarEnv where
  listPackage := fun _ => ["u"]
  statFile := fun _ _ => ⟨false, some true⟩
  extractFile := fun _ _ => [1]
  minimatch := fun _ _ => false
  lipoCreate := fun s d => .ok (s ++ d)
  remove := fun _ => .ok ()

/-- Witness for the amended C8 at a concrete input: the unpacked file `u`
is passed to the repacker and appears in the output. -/
theorem mergeASARs_unpackList_witness :
    ∃ res, (mergeASARs envC8w "x64.asar" "arm64.asar" "out.asar" none).1 = .ok res ∧
      (∀ f, f ∈ res.unpackList ↔
        ((f ∈ relFiles envC8w "x64.asar" ∧
            (envC8w.statFile "x64.asar" f).unpacked = some true ∧
            (envC8w.statFile "x64.asar" f).hasFiles = false) ∨
          (f ∈ relFiles envC8w "arm64.asar" ∧
            (envC8w.statFile "arm64.asar" f).unpacked = some true ∧
            (envC8w.statFile "arm64.asar" f).hasFiles = false))) ∧
      (∀ f ∈ res.unpackList, f ∈ res.entries) :=
  mergeASARs_unpackList (by decide) (by decide) (by decide)
    (fun s d => ⟨s ++ d, rfl⟩) rfl rfl

/-- An archive pair with one divergent Mach-O common file, an external lipo
tool that exits with nonzero status, and temporary directories whose
removal fails. -/
def envC7 : AsarEnv where
  listPackage := fun _ => ["f"]
  statFile := fun _ _ => ⟨false, none⟩
  extractFile := fun p _ => if p = "x64.asar" then [0xce, 0xfa, 0xed, 0xfe] else [1, 2, 3, 4]
  minimatch := fun _ _ => false
  lipoCreate := fun _ _ => .error "lipo exited with nonzero status"
  remove := fun d => .error ("rm failed: " ++ d)

/-- Counterexample to C7 as stated: here the original operation fails with
a binary-merge failure, cleanup removal also fails, and `mergeASARs`
surfaces the cleanup failure, not the original error — the `finally`
clause's rejection replaces the try block's outcome, so the original error
is masked rather than taking priority.  Both removals are still attempted
(both `removeDir` events occur). -/
theorem cleanupMasking_counterexample :
    validate envC7 "x64.asar" "arm64.asar" none = .ok ⟨[], ["f"], []⟩ ∧
    (mergePhase2 envC7 "x64.asar" "arm64.asar" "out.asar" ⟨[], ["f"], []⟩).1 =
      .error (.binaryMergeFailure "f" "lipo exited with nonzero status") ∧
    (mergeASARs envC7 "x64.asar" "arm64.asar" "out.asar" none).1 =
      .error (.ioError ("rm failed: " ++ x64DirName)) ∧
    Event.removeDir x64DirName ∈ (mergeASARs envC7 "x64.asar" "arm64.asar" "out.asar" none).2 ∧
    Event.removeDir arm64DirName ∈ (mergeASARs envC7 "x64.asar" "arm64.asar" "out.asar" none).2 :=
  ⟨rfl, rfl, rfl, by decide, by decide⟩

/-- C7 amended: on every exit path that reaches the workspace phase, both
temporary-directory removals are attempted (both `removeDir` events occur
in the trace, regardless of either removal's outcome), and one removal's
failure does not prevent attempting the other; however, when a removal
fails its error is what `mergeASARs` propagates, replacing (masking) the
body's outcome — the cleanup failure, not the original error, takes
priority.  When both removals succeed the body's outcome is returned
unchanged. -/
theorem mergeASARs_cleanup {env : AsarEnv} {xP aP oP : String} {allow : Option String}
    {plan : Plan} (hv : validate env xP aP allow = .ok plan) :
    (Event.removeDir x64DirName ∈ (mergeASARs env xP aP oP allow).2 ∧
      Event.removeDir arm64DirName ∈ (mergeASARs env xP aP oP allow).2) ∧
    (∀ e, env.remove x64DirName = .error e →
      (mergeASARs env xP aP oP allow).1 = .error (.ioError e)) ∧
    (∀ e, env.remove x64DirName = .ok () → env.remove arm64DirName = .error e →
      (mergeASARs env xP aP oP allow).1 = .error (.ioError e)) ∧
    (env.remove x64DirName = .ok () → env.remove arm64DirName = .ok () →
      (mergeASARs env xP aP oP allow).1 = (mergePhase2 env xP aP oP plan).1) := by
  have hev : (mergeASARs env xP aP oP allow).2 =
      (mergePhase2 env xP aP oP plan).2 ++
        [Event.removeDir x64DirName, Event.removeDir arm64DirName] := by
    simp only [mergeASARs, hv]
    cases hr1 : env.remove x64DirName with
    | error e => rfl
    | ok u => cases u; cases hr2 : env.remove arm64DirName with
      | error e => rfl
      | ok u => cases u; rfl
  refine ⟨⟨?_, ?_⟩, ?_, ?_, ?_⟩
  · rw [hev]; simp
  · rw [hev]; simp
  · intro e he
    simp only [mergeASARs, hv, he]
  · intro e he1 he2
    simp only [mergeASARs, hv, he1, he2]
  · intro he1 he2
    simp only [mergeASARs, hv, he1, he2]

/-- Witness for the amended C7 at a concrete input: with failing lipo and
failing removals, both removal attempts appear in the trace and the
cleanup error is the propagated one. -/
theorem mergeASARs_cleanup_witness :
    (Event.removeDir x64DirName ∈
        (mergeASARs envC7 "x64.asar" "arm64.asar" "out.asar" none).2 ∧
      Event.removeDir arm64DirName ∈
        (mergeASARs envC7 "x64.asar" "arm64.asar" "out.asar" none).2) ∧
    (∀ e, envC7.remove x64DirName = .error e →
      (mergeASARs envC7 "x64.asar" "arm64.asar" "out.asar" none).1 = .error (.ioError e)) ∧
    (∀ e, envC7.remove x64DirName = .ok () → envC7.remove arm64DirName = .error e →
      (mergeASARs envC7 "x64.asar" "arm64.asar" "out.asar" none).1 = .error (.ioError e)) ∧
    (envC7.remove x64DirName = .ok () → envC7.remove arm64DirName = .ok () →
      (mergeASARs envC7 "x64.asar" "arm64.asar" "out.asar" none).1 =
        (mergePhase2 envC7 "x64.asar" "arm64.asar" "out.asar" ⟨[], ["f"], []⟩).1) :=
  mergeASARs_cleanup rfl

/-- An archive pair whose single common file diverges, with a valid
Mach-O magic on the x64 side but arbitrary non-Mach-O bytes on the arm64
side. -/
def envC5 : AsarEnv where
  listPackage := fun _ => ["f"]
  statFile := fun _ _ => ⟨false, none⟩
  extractFile := fun p _ => if p = "x64.asar" then [0xce, 0xfa, 0xed, 0xfe] else [9, 9, 9, 9]
  minimatch := fun _ _ => false
  lipoCreate := fun s d => .ok (s ++ d)
  remove := fun _ => .ok ()

/-- Counterexample to C5 as stated: the divergent common file `f` has
non-Mach-O leading bytes on the arm64 (B) side, yet the merge is not
rejected — it completes successfully and the lipo tool is invoked on `f`.
Only the x64 (A) side's magic number is ever inspected. -/
theorem bSideMagic_counterexample :
    "f" ∈ divergentCommon envC5 "x64.asar" "arm64.asar" ∧
    machoOk (envC5.extractFile "arm64.asar" "f") = false ∧
    (mergeASARs envC5 "x64.asar" "arm64.asar" "out.asar" none).1.isOk = true ∧
    Event.lipo "f" ∈ (mergeASARs envC5 "x64.asar" "arm64.asar" "out.asar" none).2 :=
  ⟨by decide, by decide, rfl, by decide⟩

/-- C5 amended: for a common file the binary-shape validation inspects
only the A (x64) side's leading bytes: it rejects with `nonMacho` exactly
when the file is a non-directory by the x64 stat, the two sides' contents
differ, and the x64 content's four-byte magic read succeeds with a value
outside the recognized set — the B (arm64) side's leading bytes are never
consulted (they enter only through the byte-equality test). -/
theorem checkCommonFile_nonMacho_iff (env : AsarEnv) (xP aP f : String) :
    checkCommonFile env xP aP f = .error (.nonMacho f) ↔
      ((env.statFile xP f).hasFiles = false ∧
        env.extractFile xP f ≠ env.extractFile aP f ∧
        readUInt32LE (env.extractFile xP f) ≠ none ∧
        machoOk (env.extractFile xP f) = false) := by
  unfold checkCommonFile
  by_cases hd : (env.statFile xP f).hasFiles
  · simp [hd]
  · by_cases heq : env.extractFile xP f = env.extractFile aP f
    · simp [hd, heq]
    · cases hr : readUInt32LE (env.extractFile xP f) with
      | none => simp [hd, heq, hr, machoOk]
      | some m =>
        by_cases hm : m ∈ MACHO_MAGIC <;> simp [hd, heq, hr, hm, machoOk]

/-- An archive pair with one common path `d` that is a directory in the
x64 archive but a plain file in the arm64 archive. -/
def envC10 : AsarEnv where
  listPackage := fun _ => ["d"]
  statFile := fun a _ => if a = "x64.asar" then ⟨true, none⟩ else ⟨false, none⟩
  extractFile := fun _ _ => [1]
  minimatch := fun _ _ => false
  lipoCreate := fun s d => .ok (s ++ d)
  remove := fun _ => .ok ()

/-- C10: whether a common path is excluded from content comparison as a
directory is decided solely from the A (x64) archive's stat: a common path
whose x64 stat carries a `files` field is skipped by the common-file check
and belongs to neither `identicalCommon` nor `divergentCommon`, with no
assumption whatsoever on the B (arm64) archive's stat for that path. -/
theorem commonDirectory_skip_by_aSide {env : AsarEnv} {pA pB f : String}
    (hA : f ∈ relFiles env pA) (hB : f ∈ relFiles env pB)
    (hd : (env.statFile pA f).hasFiles = true) :
    checkCommonFile env pA pB f = .ok none ∧
      f ∉ identicalCommon env pA pB ∧ f ∉ divergentCommon env pA pB := by
  refine ⟨by simp [checkCommonFile, hd], ?_, ?_⟩ <;>
    simp [mem_identicalCommon, mem_divergentCommon, hd]

/-- Witness for C10 at a concrete input: the common path `d` is a directory
in the x64 archive and a file in the arm64 archive; it is skipped and
classified in neither content set. -/
theorem commonDirectory_skip_by_aSide_witness :
    (envC10.statFile "arm64.asar" "d").hasFiles = false ∧
    (checkCommonFile envC10 "x64.asar" "arm64.asar" "d" = .ok none ∧
      "d" ∉ identicalCommon envC10 "x64.asar" "arm64.asar" ∧
      "d" ∉ divergentCommon envC10 "x64.asar" "arm64.asar") :=
  ⟨rfl, commonDirectory_skip_by_aSide (by decide) (by decide) rfl⟩
